import Mathlib

-- Verification of the compilation-orchestrator and helper-function-registry slice
-- of the solidity repository: libsolidity/codegen/MultiUseYulFunctionCollector.cpp
-- and libyul/AssemblyStack.cpp, shallowly embedded in Lean.

set_option maxRecDepth 4000
set_option maxHeartbeats 1000000

namespace Solidity

-- ## Helper-function registry: MultiUseYulFunctionCollector

/-- Substring containment, modelling C++ std::string::find(pat) != npos. -/
def strContainsSub (s pat : String) : Bool :=
  (List.range (s.toList.length + 1)).any (fun i => pat.toList.isPrefixOf (s.toList.drop i))

/-- The sentinel text stored while a generator is running (the C++ placeholder). -/
def stubMarker : String := "<<STUB<<"

/-- The registry state. The C++ member m_requestedFunctions is a
std::map from std::string to std::string; we model it as an association list in
insertion order. std::map iterates its keys in ascending order, which the
drain operation reproduces by sorting the entries by key before folding. -/
structure MultiUseYulFunctionCollector where
  entries : List (String × String)
deriving DecidableEq

/-- Key membership in the modelled map: std::map::count(name) != 0. -/
def mapContains (m : List (String × String)) (k : String) : Bool :=
  m.any (fun e => e.1 == k)

/-- Key update in the modelled map: m[k] = v overwrites an existing entry for k
or appends a new one. -/
def mapInsert (m : List (String × String)) (k v : String) : List (String × String) :=
  match m with
  | [] => [(k, v)]
  | e :: rest => if e.1 == k then (k, v) :: rest else e :: mapInsert rest k v

/-- Embedding of MultiUseYulFunctionCollector::createFunction(_name, _creator),
the form whose generator returns the complete definition text. The external
generator is modelled by the text it would return; the Nat in the result counts
how many times the generator was invoked by this call. A solAssert failure is
the none outcome. -/
def MultiUseYulFunctionCollector.createFunction
    (c : MultiUseYulFunctionCollector) (name : String) (creator : String) :
    Option (String × MultiUseYulFunctionCollector) × Nat :=
  if mapContains c.entries name then (some (name, c), 0)
  else
    let m1 := mapInsert c.entries name stubMarker
    let fn := creator
    if fn = "" then (none, 1)
    else if strContainsSub fn ("function " ++ name ++ "(") = false then (none, 1)
    else (some (name, ⟨mapInsert m1 name fn⟩), 1)

/-- Comma-separated rendering of a name list: util::joinHumanReadable with the
default ", " separator. -/
def joinHumanReadable : List String → String
  | [] => ""
  | [x] => x
  | x :: xs => x ++ ", " ++ joinHumanReadable xs

/-- The Whiskers template render used by the two-output-list form of
createFunction: function name(args) -> rets with the arrow clause omitted when
the return list is empty, with the literal newline/tab layout of the template. -/
def renderFunctionDefinition (name : String) (args rets : List String) (body : String) :
    String :=
  "\n\t\t\t\tfunction " ++ name ++ "(" ++ joinHumanReadable args ++ ")" ++
    (if rets = [] then "" else " -> " ++ joinHumanReadable rets) ++
    " \x7b\n\t\t\t\t\t" ++ body ++ "\n\t\t\t\t\x7d\n\t\t\t"

/-- Embedding of MultiUseYulFunctionCollector::createFunction(_name, _creator),
the form whose generator fills two output lists and returns only the body. The
generator is modelled by the triple (argument names, return names, body) it
would produce; the Nat counts generator invocations; none is a solAssert
failure. -/
def MultiUseYulFunctionCollector.createFunctionWithArgs
    (c : MultiUseYulFunctionCollector) (name : String)
    (creator : List String × List String × String) :
    Option (String × MultiUseYulFunctionCollector) × Nat :=
  if name = "" then (none, 0)
  else if mapContains c.entries name then (some (name, c), 0)
  else
    let m1 := mapInsert c.entries name stubMarker
    let body := creator.2.2
    if body = "" then (none, 1)
    else
      (some (name,
        ⟨mapInsert m1 name (renderFunctionDefinition name creator.1 creator.2.1 body)⟩), 1)

/-- Character class [ \t] of the header-matching regex. -/
def isSpaceTab (ch : Char) : Bool := ch == ' ' || ch == '\t'

/-- Character class [a-zA-Z0-9_$] of the header-matching regex. -/
def isFunctionNameChar (ch : Char) : Bool :=
  (('a' ≤ ch) && (ch ≤ 'z')) || (('A' ≤ ch) && (ch ≤ 'Z')) ||
    (('0' ≤ ch) && (ch ≤ '9')) || ch == '_' || ch == '$'

/-- Whether the header regex used by requestedFunctions, namely
function[ \t]+[a-zA-Z0-9_$]+\([^\)]*\), matches starting at the head of cs.
The three quantified pieces use disjoint character classes, so maximal-munch
scanning decides matchability. -/
def functionRegexMatchesHere (cs : List Char) : Bool :=
  ("function".toList.isPrefixOf cs) &&
    (let rest1 := cs.drop 8
     let ws := (rest1.takeWhile isSpaceTab).length
     decide (0 < ws) &&
       (let rest2 := rest1.drop ws
        let idn := (rest2.takeWhile isFunctionNameChar).length
        decide (0 < idn) &&
          (match rest2.drop idn with
           | '(' :: rest4 => rest4.contains ')'
           | _ => false)))

/-- Leftmost-match scan for the header regex, returning the match position:
std::regex_search followed by match.position(). -/
def findFunctionRegexAux : List Char → Nat → Option Nat
  | [], _ => none
  | c :: rest, i =>
    if functionRegexMatchesHere (c :: rest) then some i
    else findFunctionRegexAux rest (i + 1)

/-- Position of the leftmost header-regex match in cs, if any. -/
def findFunctionRegex (cs : List Char) : Option Nat := findFunctionRegexAux cs 0

/-- Index of the last occurrence of ch, modelling std::string::find_last_of. -/
def findLastOf (ch : Char) : List Char → Option Nat
  | [] => none
  | c :: rest =>
    match findLastOf ch rest with
    | some i => some (i + 1)
    | none => if c == ch then some 0 else none

/-- One iteration of the requestedFunctions loop for a stored definition: if the
code has no "/// @src" annotation and the comment is non-empty, find the header
via the regex, count the characters between the last preceding newline and the
match start, and splice in the comment followed by a newline and that many tabs;
otherwise emit the code unchanged. none is the solAssert(regex_search) failure. -/
def insertLocationComment (sourceLocationComment code : String) : Option String :=
  if strContainsSub code "/// @src" = false ∧ sourceLocationComment ≠ "" then
    let cs := code.toList
    match findFunctionRegex cs with
    | none => none
    | some functionStart =>
      let lineStart := findLastOf '\n' (cs.take functionStart)
      let numTabs := match lineStart with | none => 0 | some ls => functionStart - ls - 1
      some (String.mk (cs.take functionStart) ++ sourceLocationComment ++ "\n" ++
        String.mk (List.replicate numTabs '\t') ++ String.mk (cs.drop functionStart))
  else some code

/-- Ascending-key order on map entries, the iteration order of std::map: the
lexicographic order on the key strings, compared as their character lists. -/
def entryLe (a b : String × String) : Prop := a.1.toList ≤ b.1.toList

instance : DecidableRel entryLe :=
  fun a b => inferInstanceAs (Decidable (a.1.toList ≤ b.1.toList))

instance : IsTotal (String × String) entryLe := ⟨fun a b => le_total a.1.toList b.1.toList⟩

instance : IsTrans (String × String) entryLe := ⟨fun _ _ _ h1 h2 => le_trans h1 h2⟩

/-- The body of the requestedFunctions loop folded over the entries in iteration
order: asserts no entry is still the stub placeholder, annotates each stored
definition and concatenates. -/
def drainEntries (sourceLocationComment : String) : List (String × String) → Option String
  | [] => some ""
  | (_, code) :: rest =>
    if code = stubMarker then none
    else
      match insertLocationComment sourceLocationComment code with
      | none => none
      | some piece =>
        match drainEntries sourceLocationComment rest with
        | none => none
        | some restStr => some (piece ++ restStr)

/-- Embedding of MultiUseYulFunctionCollector::requestedFunctions: iterate the
map in ascending key order, annotate and concatenate the stored definitions,
then clear the map. Returns the drained text together with the cleared
registry; none is a solAssert failure. -/
def MultiUseYulFunctionCollector.requestedFunctions
    (c : MultiUseYulFunctionCollector) (sourceLocationComment : String) :
    Option (String × MultiUseYulFunctionCollector) :=
  match drainEntries sourceLocationComment (List.insertionSort entryLe c.entries) with
  | none => none
  | some r => some (r, ⟨[]⟩)

-- ## Compilation orchestrator: AssemblyStack

inductive Language where
  | Assembly
  | StrictAssembly
  | Yul
  | Ewasm
deriving DecidableEq

abbrev EVMVersion := Nat

inductive Dialect where
  | evmStrictAssembly (version : EVMVersion)
  | evmTyped (version : EVMVersion)
  | wasm
deriving DecidableEq

/-- Embedding of the anonymous-namespace languageToDialect dispatch: legacy and
strict assembly map to the strict-assembly EVM dialect for the version, Yul to
the typed EVM dialect, Ewasm to the shared Wasm dialect instance. -/
def languageToDialect : Language → EVMVersion → Dialect
  | .Assembly, v => .evmStrictAssembly v
  | .StrictAssembly, v => .evmStrictAssembly v
  | .Yul, v => .evmTyped v
  | .Ewasm, _ => .wasm

/-- Success of dynamic_cast<EVMDialect const*>: both EVM dialect variants
derive from EVMDialect, the Wasm dialect does not. -/
def Dialect.isEVMDialect : Dialect → Bool
  | .evmStrictAssembly _ => true
  | .evmTyped _ => true
  | .wasm => false

/-- Analyzer metadata. AsmAnalysisInfo is filled by the external semantic
analyzer; the orchestrator only default-constructs it and stores it on the
node, so its contents are abstracted to a single-valued type. -/
abbrev AsmAnalysisInfo := Unit

/-- The freshly default-constructed metadata object, make_shared here. -/
def AsmAnalysisInfo.fresh : AsmAnalysisInfo := ()

/-- A node of the parsed IR tree: an Object (name, optional code block,
optional analysis metadata, ordered sub-nodes) or a Data blob. The code block
type is a parameter since block contents belong to the external parser. -/
inductive YulNode (Block : Type) : Type where
  | obj (name : String) (code : Option Block) (analysisInfo : Option AsmAnalysisInfo)
      (subObjects : List (YulNode Block))
  | data (name : String)

/-- The recognized optimizer options of the job configuration. -/
structure OptimiserSettings where
  runYulOptimiser : Bool
  optimizeStackAllocation : Bool
  yulOptimiserSteps : String
  expectedExecutionsPerDeployment : Nat
deriving DecidableEq

/-- The compilation-job state of AssemblyStack. The scanner is represented by
the name of its character stream, which is all the orchestrator reads from it. -/
structure AssemblyStack (Block : Type) where
  language : Language
  evmVersion : EVMVersion
  optimiserSettings : OptimiserSettings
  scannerSourceName : Option String
  parserResult : Option (YulNode Block)
  errors : List String
  analysisSuccessful : Bool

mutual

/-- Embedding of bool AssemblyStack::analyzeParsed(Object&): assert the code
block is present, attach a freshly constructed AsmAnalysisInfo, run the
external analyzer on the code, then recurse into every sub-node that is an
Object, continuing after failures. The external analyzer is modelled by the
success flag and the diagnostics it reports for a code block; none is a fatal
yulAssert. The data case is never reached: the orchestrator only applies this
to Objects. -/
def analyzeParsedObject {Block : Type} (analyzer : Block → Bool × List String) :
    YulNode Block → Option (Bool × YulNode Block × List String)
  | .obj name code _ subs =>
    match code with
    | none => none
    | some c =>
      let r := analyzer c
      match analyzeParsedSubObjects analyzer subs with
      | none => none
      | some (subSuccess, subs2, subDiags) =>
        some (r.1 && subSuccess, .obj name (some c) (some AsmAnalysisInfo.fresh) subs2,
          r.2 ++ subDiags)
  | .data name => some (true, .data name, [])

/-- The sub-node loop of analyzeParsed(Object&): recurse into Objects (the
successful dynamic_cast case), skip Data, and combine success as a conjunction
while still visiting every remaining node. -/
def analyzeParsedSubObjects {Block : Type} (analyzer : Block → Bool × List String) :
    List (YulNode Block) → Option (Bool × List (YulNode Block) × List String)
  | [] => some (true, [], [])
  | .data dn :: rest =>
    match analyzeParsedSubObjects analyzer rest with
    | none => none
    | some (s, l, d) => some (s, .data dn :: l, d)
  | .obj a b i sub :: rest =>
    match analyzeParsedObject analyzer (.obj a b i sub) with
    | none => none
    | some (s1, n2, d1) =>
      match analyzeParsedSubObjects analyzer rest with
      | none => none
      | some (s2, l, d2) => some (s1 && s2, n2 :: l, d1 ++ d2)

end

mutual

/-- Every Object node of the tree has its code block present. -/
def nodeCodePresent {Block : Type} : YulNode Block → Bool
  | .obj _ code _ subs => code.isSome && subsCodePresent subs
  | .data _ => true

/-- List form of nodeCodePresent over sub-nodes. -/
def subsCodePresent {Block : Type} : List (YulNode Block) → Bool
  | [] => true
  | n :: rest => nodeCodePresent n && subsCodePresent rest

end

mutual

/-- Conjunction of analyzer success over every Object node of the tree. -/
def nodeAnalysisSucceeds {Block : Type} (analyzer : Block → Bool × List String) :
    YulNode Block → Bool
  | .obj _ code _ subs =>
    (match code with | none => false | some c => (analyzer c).1) &&
      subsAnalysisSucceeds analyzer subs
  | .data _ => true

/-- List form of nodeAnalysisSucceeds over sub-nodes. -/
def subsAnalysisSucceeds {Block : Type} (analyzer : Block → Bool × List String) :
    List (YulNode Block) → Bool
  | [] => true
  | n :: rest => nodeAnalysisSucceeds analyzer n && subsAnalysisSucceeds analyzer rest

end

mutual

/-- Diagnostics reported for every Object node in traversal order, collected
independently of per-node success. -/
def nodeCollectedDiags {Block : Type} (analyzer : Block → Bool × List String) :
    YulNode Block → List String
  | .obj _ code _ subs =>
    (match code with | none => [] | some c => (analyzer c).2) ++
      subsCollectedDiags analyzer subs
  | .data _ => []

/-- List form of nodeCollectedDiags over sub-nodes. -/
def subsCollectedDiags {Block : Type} (analyzer : Block → Bool × List String) :
    List (YulNode Block) → List String
  | [] => []
  | n :: rest => nodeCollectedDiags analyzer n ++ subsCollectedDiags analyzer rest

end

mutual

/-- The tree with a freshly constructed metadata object attached to every
Object node and every other field unchanged. -/
def refreshNode {Block : Type} : YulNode Block → YulNode Block
  | .obj name code _ subs => .obj name code (some AsmAnalysisInfo.fresh) (refreshSubs subs)
  | .data n => .data n

/-- List form of refreshNode over sub-nodes. -/
def refreshSubs {Block : Type} : List (YulNode Block) → List (YulNode Block)
  | [] => []
  | n :: rest => refreshNode n :: refreshSubs rest

end

mutual

/-- Every Object node of the tree carries analysis metadata. -/
def nodeInfoPresent {Block : Type} : YulNode Block → Bool
  | .obj _ _ info subs => info.isSome && subsInfoPresent subs
  | .data _ => true

/-- List form of nodeInfoPresent over sub-nodes. -/
def subsInfoPresent {Block : Type} : List (YulNode Block) → Bool
  | [] => true
  | n :: rest => nodeInfoPresent n && subsInfoPresent rest

end

/-- Embedding of AssemblyStack::parseAndAnalyze: clear the diagnostics and the
analyzed flag, create the scanner, run the external parser (modelled by the
tree and the diagnostics it would produce for the source), fail early if the
parser reported diagnostics, assert that a silent parser produced a tree with
code (the tree is an Object by the parser's type, so a data root is also the
assert failure), then analyze the whole tree and record the outcome. -/
def AssemblyStack.parseAndAnalyze {Block : Type}
    (parse : String → String → Option (YulNode Block) × List String)
    (analyzer : Block → Bool × List String)
    (s : AssemblyStack Block) (sourceName source : String) :
    Option (Bool × AssemblyStack Block) :=
  let s1 := { s with errors := [], analysisSuccessful := false,
                     scannerSourceName := some sourceName }
  let pr := parse sourceName source
  let s2 := { s1 with parserResult := pr.1, errors := pr.2 }
  if pr.2 ≠ [] then some (false, s2)
  else
    match pr.1 with
    | none => none
    | some (.data _) => none
    | some (.obj _ none _ _) => none
    | some (.obj nm (some c) info subs) =>
      match analyzeParsedObject analyzer (.obj nm (some c) info subs) with
      | none => none
      | some (succ, t2, diags) =>
        some (succ, { s2 with parserResult := some t2, errors := pr.2 ++ diags,
                              analysisSuccessful := succ })

/-- Embedding of AssemblyStack::parserResult(): asserts the analyzed flag and
the presence of the tree and of its code before exposing the tree. -/
def AssemblyStack.parserResultChecked {Block : Type} (s : AssemblyStack Block) :
    Option (YulNode Block) :=
  if s.analysisSuccessful = false then none
  else
    match s.parserResult with
    | none => none
    | some (.data _) => none
    | some (.obj _ none _ _) => none
    | some (.obj nm (some c) info subs) => some (.obj nm (some c) info subs)

/-- Embedding of AssemblyStack::translate: no-op when already in the target
language; otherwise assert the transition is StrictAssembly to Ewasm, fetch the
tree through the checked parserResult() accessor, run the external
EVMToEwasmTranslator (modelled as a tree transformer) and update the language
tag. none is a fatal yulAssert. -/
def AssemblyStack.translate {Block : Type} (translator : YulNode Block → YulNode Block)
    (s : AssemblyStack Block) (targetLanguage : Language) :
    Option (AssemblyStack Block) :=
  if s.language = targetLanguage then some s
  else if s.language = .StrictAssembly ∧ targetLanguage = .Ewasm then
    match s.parserResultChecked with
    | none => none
    | some t =>
      some { s with parserResult := some (translator t), language := targetLanguage }
  else none

/-- The parameters of one invocation of the external OptimiserSuite inside
AssemblyStack::optimize(Object&, bool): whether the node being optimized is
creation code, whether a GasMeter cost model was built for it, and the
per-deployment execution estimate handed to the suite. -/
structure OptimiserInvocation where
  isCreation : Bool
  meterBuilt : Bool
  expectedExecutions : Option Nat
deriving DecidableEq

mutual

/-- Embedding of AssemblyStack::optimize(Object&, bool): assert code and
analysis metadata are present, optimize every Object sub-node first with
isCreation false, then build a GasMeter only when the dialect in use is an EVM
dialect and run the OptimiserSuite on this node, passing the
expectedExecutionsPerDeployment hint only when not compiling creation code.
The suite itself is external and modelled by a code transformer; the result
also records every suite invocation bottom-up. The data case is never reached:
the sub-node loop only recurses into Objects. -/
def optimizeObject {Block : Type} (suite : Block → Block) (lang : Language)
    (version : EVMVersion) (settings : OptimiserSettings) :
    YulNode Block → Bool → Option (YulNode Block × List OptimiserInvocation)
  | .obj name code info subs, isCreation =>
    match code, info with
    | none, _ => none
    | some _, none => none
    | some c, some i =>
      match optimizeSubObjects suite lang version settings subs with
      | none => none
      | some (subs2, calls) =>
        let dialect := languageToDialect lang version
        some (.obj name (some (suite c)) (some i) subs2,
          calls ++ [⟨isCreation, dialect.isEVMDialect,
            if isCreation then none else some settings.expectedExecutionsPerDeployment⟩])
  | .data n, _ => some (.data n, [])

/-- The sub-node loop of optimize(Object&, bool): recurse into Objects with
isCreation false, skip Data. -/
def optimizeSubObjects {Block : Type} (suite : Block → Block) (lang : Language)
    (version : EVMVersion) (settings : OptimiserSettings) :
    List (YulNode Block) → Option (List (YulNode Block) × List OptimiserInvocation)
  | [] => some ([], [])
  | .data dn :: rest =>
    match optimizeSubObjects suite lang version settings rest with
    | none => none
    | some (l, cs) => some (.data dn :: l, cs)
  | .obj a b i sub :: rest =>
    match optimizeObject suite lang version settings (.obj a b i sub) false with
    | none => none
    | some (n2, cs1) =>
      match optimizeSubObjects suite lang version settings rest with
      | none => none
      | some (l, cs2) => some (n2 :: l, cs1 ++ cs2)

end

/-- Linked binary output together with its unresolved deploy-time placeholders:
evmasm::LinkerObject restricted to the fields the orchestrator inspects. -/
structure LinkerObject where
  bytecode : List Nat
  immutableReferences : List (String × List Nat)
deriving DecidableEq

/-- A machine artifact: linked bytes, textual form and source-map text, each
empty when default-constructed. -/
structure MachineAssemblyObject where
  bytecode : Option LinkerObject
  assembly : String
  sourceMappings : Option String
deriving DecidableEq

/-- The lowered evmasm::Assembly produced by the external backend compiler: its
name, its linear items (abstracted to numbers; only used as input of the
source-map computation), the linker output its assemble() call produces, its
textual form, and its sub-assemblies, which are the lowered nested code
regions of the tree. -/
inductive EvmAssembly : Type where
  | mk (name : String) (items : List Nat) (assembled : LinkerObject)
      (textual : String) (subs : List EvmAssembly)

/-- The name of the assembly. -/
def EvmAssembly.name : EvmAssembly → String
  | .mk n _ _ _ _ => n

/-- The linear item sequence of the assembly. -/
def EvmAssembly.items : EvmAssembly → List Nat
  | .mk _ it _ _ _ => it

/-- The linker output of the external assemble() call. -/
def EvmAssembly.assemble : EvmAssembly → LinkerObject
  | .mk _ _ lo _ _ => lo

/-- The textual form produced by the external assemblyString() call. -/
def EvmAssembly.assemblyString : EvmAssembly → String
  | .mk _ _ _ t _ => t

/-- The sub-assemblies. -/
def EvmAssembly.subs : EvmAssembly → List EvmAssembly
  | .mk _ _ _ _ s => s

/-- numSubs of the assembly. -/
def EvmAssembly.numSubs (a : EvmAssembly) : Nat := a.subs.length

/-- Embedding of AssemblyStack::assembleWithDeployed: after the four entry
asserts, assemble the top level (fatal if any immutable reference is left
unresolved there), build the creation artifact from the top-level linked
bytes, textual form and source map, then select the deployed sub-assembly: the
first one whose name equals the explicitly supplied deploy name (fatal if none
matches), or, with no name given, the only sub-assembly when exactly one
exists; otherwise the deployed artifact stays default-constructed. compileEVM
and the source-map computation are external, so the lowered assembly and the
mapping function are inputs. -/
def AssemblyStack.assembleWithDeployed {Block : Type}
    (computeSourceMapping : List Nat → String → String)
    (s : AssemblyStack Block) (compiled : EvmAssembly) (deployName : Option String) :
    Option (MachineAssemblyObject × MachineAssemblyObject) :=
  if s.analysisSuccessful = false then none
  else
    match s.parserResult with
    | none => none
    | some (.data _) => none
    | some (.obj _ none _ _) => none
    | some (.obj _ (some _) none _) => none
    | some (.obj _ (some _) (some _) _) =>
      match s.scannerSourceName with
      | none => none
      | some sourceName =>
        let lo := compiled.assemble
        if lo.immutableReferences ≠ [] then none
        else
          let creationObject : MachineAssemblyObject :=
            ⟨some lo, compiled.assemblyString,
              some (computeSourceMapping compiled.items sourceName)⟩
          let subIndex : Option Nat :=
            match deployName with
            | some dn => compiled.subs.findIdx? (fun sub => sub.name == dn)
            | none => if compiled.numSubs = 1 then some 0 else none
          match deployName, subIndex with
          | some _, none => none
          | _, _ =>
            let deployedObject : MachineAssemblyObject :=
              match subIndex with
              | none => ⟨none, "", none⟩
              | some i =>
                match compiled.subs[i]? with
                | none => ⟨none, "", none⟩
                | some runtimeAssembly =>
                  ⟨some runtimeAssembly.assemble, runtimeAssembly.assemblyString,
                    some (computeSourceMapping runtimeAssembly.items sourceName)⟩
            some (creationObject, deployedObject)


-- helper lemmas on the modelled std::map

theorem mapContains_eq_false_iff (m : List (String × String)) (k : String) :
    mapContains m k = false ↔ ∀ e ∈ m, e.1 ≠ k := by
  simp [mapContains]

theorem mapContains_mapInsert_self (m : List (String × String)) (k v : String) :
    mapContains (mapInsert m k v) k = true := by
  induction m with
  | nil => simp [mapInsert, mapContains]
  | cons e rest ih =>
    by_cases h : e.1 = k
    · simp [mapInsert, h, mapContains]
    · simp only [mapInsert, beq_iff_eq, if_neg h, mapContains, List.any_cons]
      simp only [mapContains] at ih
      simp [ih]

theorem keys_mapInsert_subset {m : List (String × String)} {k v x : String}
    (h : x ∈ (mapInsert m k v).map Prod.fst) : x = k ∨ x ∈ m.map Prod.fst := by
  induction m with
  | nil =>
    simp only [mapInsert, List.map_cons, List.map_nil, List.mem_singleton] at h
    exact Or.inl h
  | cons e rest ih =>
    by_cases he : e.1 = k
    · simp only [mapInsert, beq_iff_eq, if_pos he, List.map_cons, List.mem_cons] at h
      rcases h with h | h
      · exact Or.inl h
      · exact Or.inr (by rw [List.map_cons]; exact List.mem_cons_of_mem _ h)
    · simp only [mapInsert, beq_iff_eq, if_neg he, List.map_cons, List.mem_cons] at h
      rcases h with h | h
      · exact Or.inr (by rw [List.map_cons, h]; exact List.mem_cons_self _ _)
      · rcases ih h with h1 | h1
        · exact Or.inl h1
        · exact Or.inr (by rw [List.map_cons]; exact List.mem_cons_of_mem _ h1)

theorem nodup_keys_mapInsert {m : List (String × String)} (k v : String)
    (h : (m.map Prod.fst).Nodup) : ((mapInsert m k v).map Prod.fst).Nodup := by
  induction m with
  | nil => simp [mapInsert]
  | cons e rest ih =>
    simp only [List.map_cons, List.nodup_cons] at h
    by_cases he : e.1 = k
    · simp only [mapInsert, beq_iff_eq, if_pos he, List.map_cons, List.nodup_cons]
      exact ⟨he ▸ h.1, h.2⟩
    · simp only [mapInsert, beq_iff_eq, if_neg he, List.map_cons, List.nodup_cons]
      refine ⟨fun hmem => ?_, ih h.2⟩
      rcases keys_mapInsert_subset hmem with h1 | h1
      · exact he h1
      · exact h.1 h1

theorem keyCount_eq_zero_of_not_contains {m : List (String × String)} {k : String}
    (h : mapContains m k = false) : (m.filter (fun e => e.1 == k)).length = 0 := by
  rw [List.length_eq_zero, List.filter_eq_nil_iff]
  intro e he
  simp only [beq_iff_eq]
  exact (mapContains_eq_false_iff m k).mp h e he

theorem keyCount_eq_one_of_contains {m : List (String × String)} {k : String}
    (hc : mapContains m k = true) (hnodup : (m.map Prod.fst).Nodup) :
    (m.filter (fun e => e.1 == k)).length = 1 := by
  induction m with
  | nil => simp [mapContains] at hc
  | cons e rest ih =>
    simp only [List.map_cons, List.nodup_cons] at hnodup
    by_cases he : e.1 = k
    · have hrest : mapContains rest k = false := by
        rw [mapContains_eq_false_iff]
        intro x hx hxk
        exact hnodup.1 (by rw [← he] at hxk; rw [← hxk]; exact List.mem_map_of_mem _ hx)
      have hpe : ((fun e : String × String => e.1 == k) e) = true := by simp [he]
      rw [List.filter_cons, if_pos hpe, List.length_cons,
        keyCount_eq_zero_of_not_contains hrest]
    · have hpe : ¬ ((fun e : String × String => e.1 == k) e) = true := by simp [he]
      rw [List.filter_cons, if_neg hpe]
      simp only [mapContains, List.any_cons] at hc
      rcases (Bool.or_eq_true _ _).mp hc with h1 | h1
      · exact absurd (by simpa using h1) he
      · exact ih h1 hnodup.2

/-- C3: for every name and generator, a repeated request with the same name
invokes the generator at most once, in either form of createFunction: a first
call that returns invoked the generator at most once, a second call with the
same name returns the name immediately with zero generator invocations and an
unmodified registry, and the registry then holds exactly one entry for the
name; when the name was already present the first call already did no work. -/
theorem createFunction_generator_at_most_once
    (c : MultiUseYulFunctionCollector) (name creator creator2 : String)
    (creatorB creatorB2 : List String × List String × String)
    (hnodup : (c.entries.map Prod.fst).Nodup) :
    (∀ r1 c1 k1, c.createFunction name creator = (some (r1, c1), k1) →
      r1 = name ∧ k1 ≤ 1 ∧
      c1.createFunction name creator2 = (some (name, c1), 0) ∧
      (c1.entries.filter (fun e => e.1 == name)).length = 1 ∧
      (mapContains c.entries name = true → c1 = c ∧ k1 = 0)) ∧
    (∀ r1 c1 k1, c.createFunctionWithArgs name creatorB = (some (r1, c1), k1) →
      r1 = name ∧ k1 ≤ 1 ∧
      c1.createFunctionWithArgs name creatorB2 = (some (name, c1), 0) ∧
      (c1.entries.filter (fun e => e.1 == name)).length = 1 ∧
      (mapContains c.entries name = true → c1 = c ∧ k1 = 0)) := by
  constructor
  · intro r1 c1 k1 h
    by_cases hc : mapContains c.entries name = true
    · simp only [MultiUseYulFunctionCollector.createFunction, if_pos hc, Prod.mk.injEq,
        Option.some.injEq] at h
      obtain ⟨⟨hr, hcc⟩, hk⟩ := h
      subst hr; subst hcc; subst hk
      refine ⟨rfl, by omega, ?_, keyCount_eq_one_of_contains hc hnodup, fun _ => ⟨rfl, rfl⟩⟩
      simp [MultiUseYulFunctionCollector.createFunction, hc]
    · rw [Bool.not_eq_true] at hc
      simp only [MultiUseYulFunctionCollector.createFunction, hc, Bool.false_eq_true,
        if_false] at h
      by_cases h1 : creator = ""
      · simp [h1] at h
      · rw [if_neg h1] at h
        by_cases h2 : strContainsSub creator ("function " ++ name ++ "(") = false
        · simp [h2] at h
        · rw [if_neg h2] at h
          simp only [Prod.mk.injEq, Option.some.injEq] at h
          obtain ⟨⟨hr, hcc⟩, hk⟩ := h
          subst hr
          have hc1 : mapContains c1.entries name = true := by
            rw [← hcc]
            exact mapContains_mapInsert_self _ _ _
          have hnodup1 : (c1.entries.map Prod.fst).Nodup := by
            rw [← hcc]
            exact nodup_keys_mapInsert _ _ (nodup_keys_mapInsert _ _ hnodup)
          refine ⟨rfl, by omega, ?_, keyCount_eq_one_of_contains hc1 hnodup1, ?_⟩
          · simp [MultiUseYulFunctionCollector.createFunction, hc1]
          · intro hcontra; rw [hcontra] at hc; cases hc
  · intro r1 c1 k1 h
    by_cases hn : name = ""
    · simp [MultiUseYulFunctionCollector.createFunctionWithArgs, hn] at h
    · by_cases hc : mapContains c.entries name = true
      · simp only [MultiUseYulFunctionCollector.createFunctionWithArgs, if_neg hn, if_pos hc,
          Prod.mk.injEq, Option.some.injEq] at h
        obtain ⟨⟨hr, hcc⟩, hk⟩ := h
        subst hr; subst hcc; subst hk
        refine ⟨rfl, by omega, ?_, keyCount_eq_one_of_contains hc hnodup, fun _ => ⟨rfl, rfl⟩⟩
        simp [MultiUseYulFunctionCollector.createFunctionWithArgs, hn, hc]
      · rw [Bool.not_eq_true] at hc
        simp only [MultiUseYulFunctionCollector.createFunctionWithArgs, if_neg hn, hc,
          Bool.false_eq_true, if_false] at h
        by_cases h1 : creatorB.2.2 = ""
        · simp [h1] at h
        · rw [if_neg h1] at h
          simp only [Prod.mk.injEq, Option.some.injEq] at h
          obtain ⟨⟨hr, hcc⟩, hk⟩ := h
          subst hr
          have hc1 : mapContains c1.entries name = true := by
            rw [← hcc]
            exact mapContains_mapInsert_self _ _ _
          have hnodup1 : (c1.entries.map Prod.fst).Nodup := by
            rw [← hcc]
            exact nodup_keys_mapInsert _ _ (nodup_keys_mapInsert _ _ hnodup)
          refine ⟨rfl, by omega, ?_, keyCount_eq_one_of_contains hc1 hnodup1, ?_⟩
          · simp [MultiUseYulFunctionCollector.createFunctionWithArgs, hn, hc1]
          · intro hcontra; rw [hcontra] at hc; cases hc

-- ## C9 helpers

theorem string_append_ne_empty_left {s t : String} (h : s ≠ "") : s ++ t ≠ "" := by
  intro heq
  apply h
  have hd := congrArg String.data heq
  rw [String.data_append] at hd
  rcases List.append_eq_nil.mp hd with ⟨h1, _⟩
  exact String.ext h1

theorem insertLocationComment_ne_empty {comment code piece : String}
    (hcode : code ≠ "") (h : insertLocationComment comment code = some piece) :
    piece ≠ "" := by
  unfold insertLocationComment at h
  simp only [String.toList] at h
  by_cases hcond : strContainsSub code "/// @src" = false ∧ comment ≠ ""
  · rw [if_pos hcond] at h
    cases hfind : findFunctionRegex code.data with
    | none => simp [hfind] at h
    | some fs =>
      simp only [hfind, Option.some.injEq] at h
      subst h
      intro hemp
      have hd := congrArg String.data hemp
      simp only [String.data_append] at hd
      rcases List.append_eq_nil.mp hd with ⟨h1, _⟩
      rcases List.append_eq_nil.mp h1 with ⟨h2, _⟩
      rcases List.append_eq_nil.mp h2 with ⟨_, h3⟩
      simp at h3
  · rw [if_neg hcond] at h
    simp only [Option.some.injEq] at h
    rw [← h]
    exact hcode

theorem drainEntries_ne_empty {comment r : String} {l : List (String × String)}
    (hne : l ≠ []) (hcodes : ∀ e ∈ l, e.2 ≠ "")
    (h : drainEntries comment l = some r) : r ≠ "" := by
  match l with
  | [] => exact absurd rfl hne
  | (name, code) :: rest =>
    simp only [drainEntries] at h
    by_cases hstub : code = stubMarker
    · rw [if_pos hstub] at h; cases h
    · rw [if_neg hstub] at h
      cases hins : insertLocationComment comment code with
      | none => rw [hins] at h; cases h
      | some piece =>
        rw [hins] at h
        cases hrest : drainEntries comment rest with
        | none => rw [hrest] at h; cases h
        | some restStr =>
          rw [hrest] at h
          simp only [Option.some.injEq] at h
          rw [← h]
          exact string_append_ne_empty_left
            (insertLocationComment_ne_empty (hcodes (name, code) (by simp)) hins)

/-- C9: drain empties the registry: on a registry holding at least one stored
(non-empty, finished) definition, a successful drain returns a non-empty text
and the cleared registry, and draining again immediately yields the empty text
and leaves the registry empty. -/
theorem requestedFunctions_drains_and_clears
    (c : MultiUseYulFunctionCollector) (comment r : String)
    (c1 : MultiUseYulFunctionCollector)
    (hne : c.entries ≠ []) (hcodes : ∀ e ∈ c.entries, e.2 ≠ "")
    (h : c.requestedFunctions comment = some (r, c1)) :
    r ≠ "" ∧ c1.entries = [] ∧ c1.requestedFunctions comment = some ("", c1) := by
  unfold MultiUseYulFunctionCollector.requestedFunctions at h
  cases hdrain : drainEntries comment (List.insertionSort entryLe c.entries) with
  | none => rw [hdrain] at h; cases h
  | some r0 =>
    rw [hdrain] at h
    simp only [Option.some.injEq, Prod.mk.injEq] at h
    obtain ⟨hr, hc1⟩ := h
    subst hr
    have hperm := List.perm_insertionSort entryLe c.entries
    have hsortne : List.insertionSort entryLe c.entries ≠ [] := by
      intro hnil
      rw [hnil] at hperm
      exact hne hperm.nil_eq.symm
    have hcodes2 : ∀ e ∈ List.insertionSort entryLe c.entries, e.2 ≠ "" := by
      intro e he
      exact hcodes e (hperm.mem_iff.mp he)
    refine ⟨drainEntries_ne_empty hsortne hcodes2 hdrain, ?_, ?_⟩
    · rw [← hc1]
    · rw [← hc1]
      rfl

-- ## C4

/-- C4: the drain iterates the stored definitions in ascending name order (the
iterated list is sorted under entryLe and is a permutation of the stored
entries), and for a registry with no duplicate names the drain output is
invariant under the order in which the definitions were requested. -/
theorem requestedFunctions_sorted_and_order_independent
    (c c2 : MultiUseYulFunctionCollector) (comment : String) :
    (List.Sorted entryLe (List.insertionSort entryLe c.entries) ∧
      (List.insertionSort entryLe c.entries).Perm c.entries) ∧
    (c.entries.Perm c2.entries → (c.entries.map Prod.fst).Nodup →
      c.requestedFunctions comment = c2.requestedFunctions comment) := by
  refine ⟨⟨List.sorted_insertionSort entryLe c.entries,
    List.perm_insertionSort entryLe c.entries⟩, ?_⟩
  intro hperm hnodup
  have hnodup2 : (c2.entries.map Prod.fst).Nodup := ((hperm.map Prod.fst).nodup_iff).mp hnodup
  have key : ∀ l : List (String × String), List.Sorted entryLe l →
      (l.map Prod.fst).Nodup →
      List.Pairwise (fun a b : String × String => a.1.toList < b.1.toList) l := by
    intro l hs hn
    have hn2 : l.Pairwise (fun a b => a.1 ≠ b.1) := List.pairwise_map.mp hn
    have hcomb : l.Pairwise (fun a b : String × String => entryLe a b ∧ a.1 ≠ b.1) :=
      List.pairwise_and_iff.mpr ⟨hs, hn2⟩
    exact hcomb.imp (fun hab => lt_of_le_of_ne hab.1 (fun hEq => hab.2 (String.ext hEq)))
  have hn1 : ((List.insertionSort entryLe c.entries).map Prod.fst).Nodup :=
    (((List.perm_insertionSort entryLe c.entries).map Prod.fst).nodup_iff).mpr hnodup
  have hn2' : ((List.insertionSort entryLe c2.entries).map Prod.fst).Nodup :=
    (((List.perm_insertionSort entryLe c2.entries).map Prod.fst).nodup_iff).mpr hnodup2
  have hs1 := key _ (List.sorted_insertionSort entryLe c.entries) hn1
  have hs2 := key _ (List.sorted_insertionSort entryLe c2.entries) hn2'
  have hp : (List.insertionSort entryLe c.entries).Perm
      (List.insertionSort entryLe c2.entries) :=
    (List.perm_insertionSort entryLe c.entries).trans
      (hperm.trans (List.perm_insertionSort entryLe c2.entries).symm)
  haveI : IsAntisymm (String × String) (fun a b : String × String => a.1.toList < b.1.toList) :=
    ⟨fun a b h1 h2 => absurd (lt_trans h1 h2) (lt_irrefl _)⟩
  have heq := List.eq_of_perm_of_sorted hp hs1 hs2
  unfold MultiUseYulFunctionCollector.requestedFunctions
  rw [heq]

-- ## C5 helpers

theorem findLastOf_append (ch : Char) (a b : List Char) :
    findLastOf ch (a ++ b) =
      match findLastOf ch b with
      | some i => some (a.length + i)
      | none => findLastOf ch a := by
  induction a with
  | nil => cases h : findLastOf ch b <;> simp [h, findLastOf]
  | cons x xs ih =>
    simp only [List.cons_append, findLastOf, List.append_eq]
    rw [ih]
    cases h : findLastOf ch b with
    | none => simp [findLastOf]
    | some i =>
      simp only [List.length_cons]
      exact congrArg some (by omega)

theorem findLastOf_eq_none_of_not_mem {ch : Char} {l : List Char} (h : ch ∉ l) :
    findLastOf ch l = none := by
  induction l with
  | nil => rfl
  | cons x xs ih =>
    simp only [List.mem_cons, not_or] at h
    have hne : ¬ ((x == ch) = true) := by
      simp only [beq_iff_eq]
      exact fun hx => h.1 hx.symm
    simp only [findLastOf, ih h.2, if_neg hne]

theorem findLastOf_newline_shape (p : List Char) (n : Nat) :
    findLastOf '\n' (p ++ '\n' :: List.replicate n '\t') = some p.length := by
  rw [show (p ++ '\n' :: List.replicate n '\t') = p ++ ('\n' :: List.replicate n '\t') from rfl,
    findLastOf_append]
  have hnotmem : '\n' ∉ List.replicate n '\t' := by
    intro hm
    have := List.eq_of_mem_replicate hm
    cases this
  simp [findLastOf, findLastOf_eq_none_of_not_mem hnotmem]

theorem insertLocationComment_shape (comment : String) (p r : List Char) (n : Nat)
    (hcomment : comment ≠ "")
    (hs : strContainsSub (String.mk (p ++ '\n' :: (List.replicate n '\t' ++ r)))
      "/// @src" = false)
    (hfind : findFunctionRegex (p ++ '\n' :: (List.replicate n '\t' ++ r)) =
      some (p.length + 1 + n)) :
    insertLocationComment comment (String.mk (p ++ '\n' :: (List.replicate n '\t' ++ r))) =
      some (String.mk (p ++ '\n' :: (List.replicate n '\t' ++
        (comment.data ++ '\n' :: (List.replicate n '\t' ++ r))))) := by
  have htake : (p ++ '\n' :: (List.replicate n '\t' ++ r)).take (p.length + 1 + n) =
      p ++ '\n' :: List.replicate n '\t' := by
    rw [Nat.add_assoc, List.take_append]
    congr 1
    rw [show (1 + n) = n + 1 by omega, List.take_succ_cons]
    congr 1
    exact List.take_left' (List.length_replicate n '\t')
  have hdrop : (p ++ '\n' :: (List.replicate n '\t' ++ r)).drop (p.length + 1 + n) = r := by
    rw [Nat.add_assoc, List.drop_append]
    rw [show (1 + n) = n + 1 by omega]
    rw [List.drop_succ_cons]
    exact List.drop_left' (List.length_replicate n '\t')
  have harith : p.length + 1 + n - p.length - 1 = n := by omega
  simp only [insertLocationComment, String.toList, if_pos (And.intro hs hcomment), hfind,
    htake, hdrop, findLastOf_newline_shape, harith]
  apply congrArg
  apply String.ext
  simp [String.data_append, List.append_assoc, (show ("\n".data) = ['\n'] from rfl)]

/-- C5: drain inserts the source-location comment on its own line directly
above the function header line of a stored definition that has no existing
location annotation, repeating the leading tab count of the header line so the
comment aligns with it; a definition already containing a location annotation
is emitted byte-for-byte unchanged. -/
theorem requestedFunctions_source_location_injection :
    (∀ (name comment : String) (p r : List Char) (n : Nat),
      comment ≠ "" →
      strContainsSub (String.mk (p ++ '\n' :: (List.replicate n '\t' ++ r)))
        "/// @src" = false →
      findFunctionRegex (p ++ '\n' :: (List.replicate n '\t' ++ r)) =
        some (p.length + 1 + n) →
      MultiUseYulFunctionCollector.requestedFunctions
          ⟨[(name, String.mk (p ++ '\n' :: (List.replicate n '\t' ++ r)))]⟩ comment =
        some (String.mk (p ++ '\n' :: (List.replicate n '\t' ++
          (comment.data ++ '\n' :: (List.replicate n '\t' ++ r)))), ⟨[]⟩)) ∧
    (∀ (name comment code : String),
      strContainsSub code "/// @src" = true →
      MultiUseYulFunctionCollector.requestedFunctions ⟨[(name, code)]⟩ comment =
        some (code, ⟨[]⟩)) := by
  constructor
  · intro name comment p r n hcomment hs hfind
    have hstub : String.mk (p ++ '\n' :: (List.replicate n '\t' ++ r)) ≠ stubMarker := by
      intro heq
      have hmem : '\n' ∈ (String.mk (p ++ '\n' :: (List.replicate n '\t' ++ r))).data := by
        simp
      rw [heq] at hmem
      revert hmem
      decide
    unfold MultiUseYulFunctionCollector.requestedFunctions
    rw [show List.insertionSort entryLe
      [(name, String.mk (p ++ '\n' :: (List.replicate n '\t' ++ r)))] =
      [(name, String.mk (p ++ '\n' :: (List.replicate n '\t' ++ r)))] from rfl]
    simp only [drainEntries, if_neg hstub,
      insertLocationComment_shape comment p r n hcomment hs hfind]
    simp
  · intro name comment code hsrc
    have hstub : code ≠ stubMarker := by
      intro heq
      rw [heq] at hsrc
      revert hsrc
      decide
    have hins : insertLocationComment comment code = some code := by
      unfold insertLocationComment
      rw [if_neg]
      intro hcond
      rw [hsrc] at hcond
      cases hcond.1
    unfold MultiUseYulFunctionCollector.requestedFunctions
    rw [show List.insertionSort entryLe [(name, code)] = [(name, code)] from rfl]
    simp only [drainEntries, if_neg hstub, hins]
    simp

/-- Witness for C3: a fresh request stores the generated definition and a
repeat request returns immediately without another generator invocation, for
both request forms. -/
theorem createFunction_generator_at_most_once_witness :
    ("foo" = "foo" ∧ 1 ≤ 1 ∧
      MultiUseYulFunctionCollector.createFunction
          ⟨[("foo", "function foo() \x7b \x7d")]⟩ "foo" "gen2" =
        (some ("foo", ⟨[("foo", "function foo() \x7b \x7d")]⟩), 0) ∧
      ((⟨[("foo", "function foo() \x7b \x7d")]⟩ :
          MultiUseYulFunctionCollector).entries.filter (fun e => e.1 == "foo")).length = 1 ∧
      (mapContains ([] : List (String × String)) "foo" = true →
        (⟨[("foo", "function foo() \x7b \x7d")]⟩ : MultiUseYulFunctionCollector) = ⟨[]⟩ ∧
          1 = 0)) ∧
    ("bar" = "bar" ∧ 1 ≤ 1 ∧
      MultiUseYulFunctionCollector.createFunctionWithArgs
          ⟨[("bar", "\n\t\t\t\tfunction bar(x) -> y \x7b\n\t\t\t\t\ty := x\n\t\t\t\t\x7d\n\t\t\t")]⟩
          "bar" (["x2"], ["y2"], "y2 := x2") =
        (some ("bar",
          ⟨[("bar", "\n\t\t\t\tfunction bar(x) -> y \x7b\n\t\t\t\t\ty := x\n\t\t\t\t\x7d\n\t\t\t")]⟩), 0) ∧
      ((⟨[("bar", "\n\t\t\t\tfunction bar(x) -> y \x7b\n\t\t\t\t\ty := x\n\t\t\t\t\x7d\n\t\t\t")]⟩ :
          MultiUseYulFunctionCollector).entries.filter (fun e => e.1 == "bar")).length = 1 ∧
      (mapContains ([] : List (String × String)) "bar" = true →
        (⟨[("bar", "\n\t\t\t\tfunction bar(x) -> y \x7b\n\t\t\t\t\ty := x\n\t\t\t\t\x7d\n\t\t\t")]⟩ :
          MultiUseYulFunctionCollector) = ⟨[]⟩ ∧ 1 = 0)) :=
  ⟨(createFunction_generator_at_most_once ⟨[]⟩ "foo" "function foo() \x7b \x7d" "gen2"
      ([], [], "b") ([], [], "b2") (by decide)).1 "foo"
      ⟨[("foo", "function foo() \x7b \x7d")]⟩ 1 (by decide),
    (createFunction_generator_at_most_once ⟨[]⟩ "bar" "g" "g2"
      (["x"], ["y"], "y := x") (["x2"], ["y2"], "y2 := x2") (by decide)).2 "bar"
      ⟨[("bar", "\n\t\t\t\tfunction bar(x) -> y \x7b\n\t\t\t\t\ty := x\n\t\t\t\t\x7d\n\t\t\t")]⟩ 1
      (by decide)⟩

/-- Witness for C4 at the spec's example: requesting z_helper then a_helper
produces the same drain output as the opposite request order, and that output
lists a_helper's definition first. -/
theorem requestedFunctions_sorted_and_order_independent_witness :
    ((⟨[("z_helper", "function z_helper() -> a \x7b a := 1 \x7d"),
        ("a_helper", "function a_helper() -> a \x7b a := 2 \x7d")]⟩ :
        MultiUseYulFunctionCollector).requestedFunctions "" =
      (⟨[("a_helper", "function a_helper() -> a \x7b a := 2 \x7d"),
        ("z_helper", "function z_helper() -> a \x7b a := 1 \x7d")]⟩ :
        MultiUseYulFunctionCollector).requestedFunctions "") ∧
    (⟨[("z_helper", "function z_helper() -> a \x7b a := 1 \x7d"),
        ("a_helper", "function a_helper() -> a \x7b a := 2 \x7d")]⟩ :
        MultiUseYulFunctionCollector).requestedFunctions "" =
      some ("function a_helper() -> a \x7b a := 2 \x7dfunction z_helper() -> a \x7b a := 1 \x7d",
        ⟨[]⟩) :=
  ⟨(requestedFunctions_sorted_and_order_independent
      ⟨[("z_helper", "function z_helper() -> a \x7b a := 1 \x7d"),
        ("a_helper", "function a_helper() -> a \x7b a := 2 \x7d")]⟩
      ⟨[("a_helper", "function a_helper() -> a \x7b a := 2 \x7d"),
        ("z_helper", "function z_helper() -> a \x7b a := 1 \x7d")]⟩ "").2
    (by decide) (by decide), by decide⟩

/-- Witness for C5 at the spec's example: four leading tabs and the comment
text given in the spec, plus an already-annotated definition left unchanged. -/
theorem requestedFunctions_source_location_injection_witness :
    (MultiUseYulFunctionCollector.requestedFunctions
        ⟨[("f", String.mk ("// helper".toList ++ '\n' :: (List.replicate 4 '\t' ++
          "function foo(a) -> b \x7b b := a \x7d".toList)))]⟩ "/// @src 0:10:20" =
      some (String.mk ("// helper".toList ++ '\n' :: (List.replicate 4 '\t' ++
        (("/// @src 0:10:20" : String).data ++ '\n' :: (List.replicate 4 '\t' ++
          "function foo(a) -> b \x7b b := a \x7d".toList)))), ⟨[]⟩)) ∧
    (MultiUseYulFunctionCollector.requestedFunctions
        ⟨[("g", "/// @src 0:1:2\nfunction g() \x7b \x7d")]⟩ "/// @src 0:10:20" =
      some ("/// @src 0:1:2\nfunction g() \x7b \x7d", ⟨[]⟩)) :=
  ⟨requestedFunctions_source_location_injection.1 "f" "/// @src 0:10:20"
      ("// helper".toList) ("function foo(a) -> b \x7b b := a \x7d".toList) 4
      (by decide) (by decide) (by decide),
    requestedFunctions_source_location_injection.2 "g" "/// @src 0:10:20"
      "/// @src 0:1:2\nfunction g() \x7b \x7d" (by decide)⟩

/-- Witness for C9: a registry holding one finished definition drains to that
definition and is empty afterwards. -/
theorem requestedFunctions_drains_and_clears_witness :
    "function f() \x7b \x7d" ≠ "" ∧
    (⟨[]⟩ : MultiUseYulFunctionCollector).entries = [] ∧
    (⟨[]⟩ : MultiUseYulFunctionCollector).requestedFunctions "" = some ("", ⟨[]⟩) :=
  requestedFunctions_drains_and_clears ⟨[("f", "function f() \x7b \x7d")]⟩ ""
    "function f() \x7b \x7d" ⟨[]⟩ (by decide) (by decide) (by decide)

-- ## Orchestrator helper lemmas: analyzeParsed characterization

theorem analyzeParsedSubObjects_eq {Block : Type} (analyzer : Block → Bool × List String) :
    ∀ (l : List (YulNode Block)), subsCodePresent l = true →
      analyzeParsedSubObjects analyzer l =
        some (subsAnalysisSucceeds analyzer l, refreshSubs l, subsCollectedDiags analyzer l)
  | [] => fun _ => rfl
  | .data dn :: rest => fun h => by
    have hrest : subsCodePresent rest = true := by
      simp only [subsCodePresent, nodeCodePresent, Bool.true_and] at h
      exact h
    simp only [analyzeParsedSubObjects, analyzeParsedSubObjects_eq analyzer rest hrest,
      subsAnalysisSucceeds, nodeAnalysisSucceeds, refreshSubs, refreshNode,
      subsCollectedDiags, nodeCollectedDiags, Bool.true_and, List.nil_append]
  | .obj a code i sub :: rest => fun h => by
    simp only [subsCodePresent, nodeCodePresent, Bool.and_eq_true] at h
    obtain ⟨⟨hcode, hsub⟩, hrest⟩ := h
    obtain ⟨c, rfl⟩ : ∃ c, code = some c := by
      cases code with
      | none => simp at hcode
      | some c => exact ⟨c, rfl⟩
    simp only [analyzeParsedSubObjects, analyzeParsedObject,
      analyzeParsedSubObjects_eq analyzer sub hsub,
      analyzeParsedSubObjects_eq analyzer rest hrest,
      subsAnalysisSucceeds, nodeAnalysisSucceeds, refreshSubs, refreshNode,
      subsCollectedDiags, nodeCollectedDiags, Bool.and_assoc, List.append_assoc]

theorem analyzeParsedObject_eq {Block : Type} (analyzer : Block → Bool × List String)
    (t : YulNode Block) (h : nodeCodePresent t = true) :
    analyzeParsedObject analyzer t =
      some (nodeAnalysisSucceeds analyzer t, refreshNode t, nodeCollectedDiags analyzer t) := by
  match t with
  | .data n => rfl
  | .obj a code i sub =>
    simp only [nodeCodePresent, Bool.and_eq_true] at h
    obtain ⟨c, rfl⟩ : ∃ c, code = some c := by
      cases code with
      | none => simp at h
      | some c => exact ⟨c, rfl⟩
    simp only [analyzeParsedObject, analyzeParsedSubObjects_eq analyzer sub h.2,
      nodeAnalysisSucceeds, refreshNode, nodeCollectedDiags]

theorem subsCollectedDiags_ne_nil {Block : Type} (analyzer : Block → Bool × List String)
    (hcontract : ∀ b, (analyzer b).1 = false → (analyzer b).2 ≠ []) :
    ∀ (l : List (YulNode Block)), subsCodePresent l = true →
      subsAnalysisSucceeds analyzer l = false → subsCollectedDiags analyzer l ≠ []
  | [] => by simp [subsAnalysisSucceeds]
  | .data dn :: rest => fun hc h => by
    simp only [subsCodePresent, nodeCodePresent, Bool.true_and] at hc
    simp only [subsAnalysisSucceeds, nodeAnalysisSucceeds, Bool.true_and] at h
    simp only [subsCollectedDiags, nodeCollectedDiags, List.nil_append]
    exact subsCollectedDiags_ne_nil analyzer hcontract rest hc h
  | .obj a code i sub :: rest => fun hc h => by
    simp only [subsCodePresent, nodeCodePresent, Bool.and_eq_true] at hc
    obtain ⟨⟨hcode, hsub⟩, hrest⟩ := hc
    obtain ⟨c, rfl⟩ : ∃ c, code = some c := by
      cases code with
      | none => simp at hcode
      | some c => exact ⟨c, rfl⟩
    simp only [subsAnalysisSucceeds, nodeAnalysisSucceeds] at h
    simp only [subsCollectedDiags, nodeCollectedDiags]
    by_cases hown : (analyzer c).1 = false
    · intro hnil
      rcases List.append_eq_nil.mp hnil with ⟨h12, _⟩
      rcases List.append_eq_nil.mp h12 with ⟨h1, _⟩
      exact hcontract c hown h1
    · rw [Bool.not_eq_false] at hown
      rw [hown] at h
      simp only [Bool.true_and] at h
      by_cases hsubfail : subsAnalysisSucceeds analyzer sub = false
      · intro hnil
        rcases List.append_eq_nil.mp hnil with ⟨h12, _⟩
        rcases List.append_eq_nil.mp h12 with ⟨_, h2⟩
        exact subsCollectedDiags_ne_nil analyzer hcontract sub hsub hsubfail h2
      · rw [Bool.not_eq_false] at hsubfail
        rw [hsubfail] at h
        simp only [Bool.true_and] at h
        intro hnil
        rcases List.append_eq_nil.mp hnil with ⟨_, h3⟩
        exact subsCollectedDiags_ne_nil analyzer hcontract rest hrest h h3

theorem nodeCollectedDiags_ne_nil {Block : Type} (analyzer : Block → Bool × List String)
    (hcontract : ∀ b, (analyzer b).1 = false → (analyzer b).2 ≠ [])
    (t : YulNode Block) (hc : nodeCodePresent t = true)
    (h : nodeAnalysisSucceeds analyzer t = false) :
    nodeCollectedDiags analyzer t ≠ [] := by
  match t with
  | .data n => simp [nodeAnalysisSucceeds] at h
  | .obj a code i sub =>
    simp only [nodeCodePresent, Bool.and_eq_true] at hc
    obtain ⟨c, rfl⟩ : ∃ c, code = some c := by
      cases code with
      | none => simp at hc
      | some c => exact ⟨c, rfl⟩
    simp only [nodeAnalysisSucceeds] at h
    simp only [nodeCollectedDiags]
    by_cases hown : (analyzer c).1 = false
    · intro hlist
      rcases List.append_eq_nil.mp hlist with ⟨h1, _⟩
      exact hcontract c hown h1
    · rw [Bool.not_eq_false] at hown
      rw [hown] at h
      simp only [Bool.true_and] at h
      intro hlist
      rcases List.append_eq_nil.mp hlist with ⟨_, h2⟩
      exact subsCollectedDiags_ne_nil analyzer hcontract sub hc.2 h h2

theorem subsInfoPresent_refreshSubs {Block : Type} :
    ∀ (l : List (YulNode Block)), subsInfoPresent (refreshSubs l) = true
  | [] => rfl
  | .data dn :: rest => by
    simp [refreshSubs, refreshNode, subsInfoPresent, nodeInfoPresent,
      subsInfoPresent_refreshSubs rest]
  | .obj a code i sub :: rest => by
    simp [refreshSubs, refreshNode, subsInfoPresent, nodeInfoPresent,
      subsInfoPresent_refreshSubs sub, subsInfoPresent_refreshSubs rest]

theorem nodeInfoPresent_refreshNode {Block : Type} (t : YulNode Block) :
    nodeInfoPresent (refreshNode t) = true := by
  match t with
  | .data n => rfl
  | .obj a code i sub =>
    simp [refreshNode, nodeInfoPresent, subsInfoPresent_refreshSubs sub]

/-- C6: parseAndAnalyze returns true and stores a non-null tree exactly when
the parser reported no diagnostics and the analysis of every Object node
succeeded: on parser diagnostics it returns false with exactly those non-empty
diagnostics recorded and no analysis run; on a silent parse it returns the
conjunction of analyzer success over all nodes, stores the re-analyzed tree,
and records the diagnostics of all nodes -- visiting every node even past a
failing one -- and these diagnostics are non-empty whenever the conjunction is
false. -/
theorem parseAndAnalyze_spec {Block : Type}
    (parse : String → String → Option (YulNode Block) × List String)
    (analyzer : Block → Bool × List String)
    (s : AssemblyStack Block) (sourceName source : String)
    (hcontract : ∀ b, (analyzer b).1 = false → (analyzer b).2 ≠ []) :
    ((parse sourceName source).2 ≠ [] →
      s.parseAndAnalyze parse analyzer sourceName source =
        some (false,
          { s with errors := (parse sourceName source).2, analysisSuccessful := false,
                   scannerSourceName := some sourceName,
                   parserResult := (parse sourceName source).1 })) ∧
    (∀ nm c info sub,
      parse sourceName source = (some (.obj nm (some c) info sub), []) →
      nodeCodePresent (YulNode.obj nm (some c) info sub) = true →
      s.parseAndAnalyze parse analyzer sourceName source =
        some (nodeAnalysisSucceeds analyzer (.obj nm (some c) info sub),
          { s with scannerSourceName := some sourceName,
                   parserResult := some (refreshNode (.obj nm (some c) info sub)),
                   errors := nodeCollectedDiags analyzer (.obj nm (some c) info sub),
                   analysisSuccessful :=
                     nodeAnalysisSucceeds analyzer (.obj nm (some c) info sub) }) ∧
      (nodeAnalysisSucceeds analyzer (.obj nm (some c) info sub) = false →
        nodeCollectedDiags analyzer (.obj nm (some c) info sub) ≠ [])) := by
  constructor
  · intro hne
    simp only [AssemblyStack.parseAndAnalyze]
    rw [if_pos hne]
  · intro nm c info sub hparse hcode
    refine ⟨?_, nodeCollectedDiags_ne_nil analyzer hcontract _ hcode⟩
    simp only [AssemblyStack.parseAndAnalyze, hparse]
    rw [if_neg (by simp)]
    simp only [analyzeParsedObject_eq analyzer _ hcode, List.nil_append]

/-- Witness for C6: a two-node tree whose sub-object fails analysis makes
parseAndAnalyze return false with the failing node's diagnostic recorded, and
a parser diagnostic makes it return false without analyzing. -/
theorem parseAndAnalyze_spec_witness :
    (AssemblyStack.parseAndAnalyze
        (fun _ _ => (none, ["parse error"]))
        (fun b : Nat => (b == 0, if b == 0 then [] else ["analysis error"]))
        ⟨.Yul, 0, ⟨false, false, "", 0⟩, none, none, [], false⟩ "input.yul" "src" =
      some (false, ⟨.Yul, 0, ⟨false, false, "", 0⟩, some "input.yul", none,
        ["parse error"], false⟩)) ∧
    (AssemblyStack.parseAndAnalyze
        (fun _ _ => (some (.obj "root" (some 0) none [.obj "sub" (some 1) none []]), []))
        (fun b : Nat => (b == 0, if b == 0 then [] else ["analysis error"]))
        ⟨.Yul, 0, ⟨false, false, "", 0⟩, none, none, [], false⟩ "input.yul" "src" =
      some (false, ⟨.Yul, 0, ⟨false, false, "", 0⟩, some "input.yul",
        some (.obj "root" (some 0) (some AsmAnalysisInfo.fresh)
          [.obj "sub" (some 1) (some AsmAnalysisInfo.fresh) []]),
        ["analysis error"], false⟩)) := by
  have hcontract : ∀ b : Nat, ((fun b => ((b == 0 : Bool),
      if b == 0 then ([] : List String) else ["analysis error"])) b).1 = false →
      ((fun b => ((b == 0 : Bool), if b == 0 then ([] : List String)
        else ["analysis error"])) b).2 ≠ [] := by
    intro b hb
    simp only at hb ⊢
    rw [hb]
    simp
  constructor
  · exact (parseAndAnalyze_spec (fun _ _ => (none, ["parse error"]))
      (fun b : Nat => (b == 0, if b == 0 then [] else ["analysis error"]))
      ⟨.Yul, 0, ⟨false, false, "", 0⟩, none, none, [], false⟩ "input.yul" "src"
      hcontract).1 (by decide)
  · exact ((parseAndAnalyze_spec
      (fun _ _ => (some (.obj "root" (some 0) none [.obj "sub" (some 1) none []]), []))
      (fun b : Nat => (b == 0, if b == 0 then [] else ["analysis error"]))
      ⟨.Yul, 0, ⟨false, false, "", 0⟩, none, none, [], false⟩ "input.yul" "src"
      hcontract).2 "root" 0 none [.obj "sub" (some 1) none [] ] rfl rfl).1

/-- C10: running analyzeParsed over a tree whose Objects all carry code
returns the tree with a freshly constructed metadata object attached to every
Object node -- independently of whatever metadata the nodes held before, and
also when the analysis of some node fails -- so after the run every Object
node has analysis metadata present. -/
theorem analyzeParsed_refreshes_all_metadata {Block : Type}
    (analyzer : Block → Bool × List String) (t : YulNode Block)
    (h : nodeCodePresent t = true) :
    analyzeParsedObject analyzer t =
      some (nodeAnalysisSucceeds analyzer t, refreshNode t,
        nodeCollectedDiags analyzer t) ∧
    nodeInfoPresent (refreshNode t) = true :=
  ⟨analyzeParsedObject_eq analyzer t h, nodeInfoPresent_refreshNode t⟩

/-- Witness for C10: an always-failing analyzer still leaves fresh metadata on
every node of a two-object tree with stale and missing metadata. -/
theorem analyzeParsed_refreshes_all_metadata_witness :
    (analyzeParsedObject (fun _ : Nat => (false, ["e"]))
        (.obj "root" (some 5) none [.obj "sub" (some 6) (some AsmAnalysisInfo.fresh) [], .data "d"]) =
      some (false,
        .obj "root" (some 5) (some AsmAnalysisInfo.fresh)
          [.obj "sub" (some 6) (some AsmAnalysisInfo.fresh) [], .data "d"],
        ["e", "e"])) ∧
    nodeInfoPresent (refreshNode (YulNode.obj "root" (some (5 : Nat)) none
      [.obj "sub" (some 6) (some AsmAnalysisInfo.fresh) [], .data "d"])) = true :=
  analyzeParsed_refreshes_all_metadata (fun _ : Nat => (false, ["e"]))
    (.obj "root" (some 5) none [.obj "sub" (some 6) (some AsmAnalysisInfo.fresh) [], .data "d"])
    rfl

/-- C2 counterexample: on a strict-assembly job whose analyzed flag is false,
the supported strict-assembly-to-Ewasm translation is a fatal assert (none)
rather than a conversion, because translate fetches the tree through the
parserResult() accessor, which asserts the analyzed flag; the claim states the
conversion happens without re-validating that flag. -/
theorem translate_counterexample :
    AssemblyStack.translate id
      ({ language := .StrictAssembly, evmVersion := 0,
         optimiserSettings := ⟨false, false, "", 0⟩,
         scannerSourceName := some "src",
         parserResult := some (.obj "object" (some 0) (some AsmAnalysisInfo.fresh) []),
         errors := [], analysisSuccessful := false } : AssemblyStack Nat) .Ewasm = none := rfl

/-- C2 amended: translate is a no-op when the target equals the current
language; the only supported non-trivial transition is strict assembly to
Ewasm and any other transition is a fatal unsupported-operation assert; the
supported transition requires the job to be in a successfully analyzed state
with a present tree (fatal otherwise, since the tree is fetched through the
asserting parserResult accessor), and then converts the tree and updates the
language tag without re-running analysis: the analyzed flag and diagnostics
are left untouched. -/
theorem translate_spec {Block : Type} (translator : YulNode Block → YulNode Block)
    (s : AssemblyStack Block) (target : Language) :
    (s.language = target → s.translate translator target = some s) ∧
    (s.language ≠ target → ¬(s.language = .StrictAssembly ∧ target = .Ewasm) →
      s.translate translator target = none) ∧
    (s.language = .StrictAssembly → target = .Ewasm →
      (s.analysisSuccessful = false → s.translate translator target = none) ∧
      (∀ t, s.parserResultChecked = some t →
        s.translate translator target =
          some { s with parserResult := some (translator t), language := target })) := by
  refine ⟨?_, ?_, ?_⟩
  · intro h
    simp [AssemblyStack.translate, h]
  · intro h1 h2
    simp only [AssemblyStack.translate, if_neg h1, if_neg h2]
  · intro hl ht
    have hne : s.language ≠ target := by
      rw [hl, ht]
      intro hcontra
      cases hcontra
    constructor
    · intro hana
      have hchk : s.parserResultChecked = none := by
        simp [AssemblyStack.parserResultChecked, hana]
      simp only [AssemblyStack.translate, if_neg hne, if_pos (And.intro hl ht), hchk]
    · intro t hres
      simp only [AssemblyStack.translate, if_neg hne, if_pos (And.intro hl ht), hres]

/-- Witness for C2 at concrete jobs: a same-language call is a no-op, a
Yul-to-Ewasm request is fatal, and the supported transition on an analyzed job
converts the tree and retags the language. -/
theorem translate_spec_witness :
    (AssemblyStack.translate id
        (⟨.Yul, 0, ⟨false, false, "", 0⟩, none, none, [], false⟩ : AssemblyStack Nat) .Yul =
      some ⟨.Yul, 0, ⟨false, false, "", 0⟩, none, none, [], false⟩) ∧
    (AssemblyStack.translate id
        (⟨.Yul, 0, ⟨false, false, "", 0⟩, none, none, [], false⟩ : AssemblyStack Nat) .Ewasm = none) ∧
    (AssemblyStack.translate (fun _ => .obj "t" (some 9) none [])
        (⟨.StrictAssembly, 0, ⟨false, false, "", 0⟩, some "src",
          some (.obj "o" (some 3) (some AsmAnalysisInfo.fresh) []), [], true⟩ : AssemblyStack Nat) .Ewasm =
      some ⟨.Ewasm, 0, ⟨false, false, "", 0⟩, some "src",
        some (.obj "t" (some 9) none []), [], true⟩) :=
  ⟨(translate_spec id
      (⟨.Yul, 0, ⟨false, false, "", 0⟩, none, none, [], false⟩ : AssemblyStack Nat) .Yul).1 rfl,
    (translate_spec id
      (⟨.Yul, 0, ⟨false, false, "", 0⟩, none, none, [], false⟩ : AssemblyStack Nat) .Ewasm).2.1
      (by intro h; cases h) (by intro h; cases h.1),
    ((translate_spec (fun _ => .obj "t" (some 9) none [])
      (⟨.StrictAssembly, 0, ⟨false, false, "", 0⟩, some "src",
        some (.obj "o" (some 3) (some AsmAnalysisInfo.fresh) []), [], true⟩ : AssemblyStack Nat) .Ewasm).2.2
      rfl rfl).2 (.obj "o" (some 3) (some AsmAnalysisInfo.fresh) []) rfl⟩

/-- C7: for an analyzed job, every creation artifact returned by
assembleWithDeployed carries the top-level linker output, whose set of
unresolved immutable references is empty; if any reference is left unresolved
after linking the top level, the call is a fatal assert (none) instead of
returning artifacts. -/
theorem assembleWithDeployed_no_leftover_immutables {Block : Type}
    (csm : List Nat → String → String) (s : AssemblyStack Block)
    (compiled : EvmAssembly) (deployName : Option String)
    (nm : String) (c : Block) (i : AsmAnalysisInfo) (subNodes : List (YulNode Block))
    (srcName : String)
    (hana : s.analysisSuccessful = true)
    (htree : s.parserResult = some (.obj nm (some c) (some i) subNodes))
    (hscan : s.scannerSourceName = some srcName) :
    (∀ creation deployed,
      s.assembleWithDeployed csm compiled deployName = some (creation, deployed) →
      creation.bytecode = some compiled.assemble ∧
      compiled.assemble.immutableReferences = []) ∧
    (compiled.assemble.immutableReferences ≠ [] →
      s.assembleWithDeployed csm compiled deployName = none) := by
  constructor
  · intro creation deployed h
    simp only [AssemblyStack.assembleWithDeployed, hana, htree, hscan] at h
    rw [if_neg (fun hk : true = false => by cases hk)] at h
    by_cases him : compiled.assemble.immutableReferences = []
    · rw [if_neg (fun hk => hk him)] at h
      refine ⟨?_, him⟩
      split at h
      · cases h
      · simp only [Option.some.injEq, Prod.mk.injEq] at h
        rw [← h.1]
    · rw [if_pos him] at h
      cases h
  · intro him
    simp only [AssemblyStack.assembleWithDeployed, hana, htree, hscan]
    rw [if_neg (fun hk : true = false => by cases hk), if_pos him]

/-- Witness for C7: a job whose top-level link keeps an unresolved immutable
reference aborts, and with the reference resolved it returns a creation
artifact holding the top-level linker output. -/
theorem assembleWithDeployed_no_leftover_immutables_witness :
    (AssemblyStack.assembleWithDeployed (fun _ _ => "map")
        (⟨.StrictAssembly, 0, ⟨false, false, "", 0⟩, some "src",
          some (.obj "o" (some 3) (some AsmAnalysisInfo.fresh) []), [], true⟩ : AssemblyStack Nat)
        (.mk "root" [7] ⟨[1, 2], [("imm", [4])]⟩ "text" []) none = none) ∧
    ((⟨some ⟨[1, 2], []⟩, "text", some "map"⟩ : MachineAssemblyObject).bytecode =
        some (EvmAssembly.mk "root" [7] ⟨[1, 2], []⟩ "text" []).assemble ∧
      (EvmAssembly.mk "root" [7] ⟨[1, 2], []⟩ "text" []).assemble.immutableReferences = []) :=
  ⟨(assembleWithDeployed_no_leftover_immutables (fun _ _ => "map")
      (⟨.StrictAssembly, 0, ⟨false, false, "", 0⟩, some "src",
        some (.obj "o" (some 3) (some AsmAnalysisInfo.fresh) []), [], true⟩ : AssemblyStack Nat)
      (.mk "root" [7] ⟨[1, 2], [("imm", [4])]⟩ "text" []) none
      "o" 3 AsmAnalysisInfo.fresh [] "src" rfl rfl rfl).2 (by decide),
    (assembleWithDeployed_no_leftover_immutables (fun _ _ => "map")
      (⟨.StrictAssembly, 0, ⟨false, false, "", 0⟩, some "src",
        some (.obj "o" (some 3) (some AsmAnalysisInfo.fresh) []), [], true⟩ : AssemblyStack Nat)
      (.mk "root" [7] ⟨[1, 2], []⟩ "text" []) none
      "o" 3 AsmAnalysisInfo.fresh [] "src" rfl rfl rfl).1
      ⟨some ⟨[1, 2], []⟩, "text", some "map"⟩ ⟨none, "", none⟩ rfl⟩

theorem optimizeSubObjects_spec {Block : Type} (suite : Block → Block) (lang : Language)
    (version : EVMVersion) (settings : OptimiserSettings) :
    ∀ (l l2 : List (YulNode Block)) (calls : List OptimiserInvocation),
      optimizeSubObjects suite lang version settings l = some (l2, calls) →
      ∀ inv ∈ calls, inv.isCreation = false ∧
        inv.meterBuilt = (languageToDialect lang version).isEVMDialect ∧
        inv.expectedExecutions = some settings.expectedExecutionsPerDeployment
  | [], l2, calls => by
    intro h inv hinv
    simp only [optimizeSubObjects, Option.some.injEq, Prod.mk.injEq] at h
    rw [← h.2] at hinv
    cases hinv
  | .data dn :: rest, l2, calls => by
    intro h inv hinv
    simp only [optimizeSubObjects] at h
    cases hrest : optimizeSubObjects suite lang version settings rest with
    | none => rw [hrest] at h; cases h
    | some p =>
      obtain ⟨l', cs⟩ := p
      rw [hrest] at h
      simp only [Option.some.injEq, Prod.mk.injEq] at h
      rw [← h.2] at hinv
      exact optimizeSubObjects_spec suite lang version settings rest l' cs hrest inv hinv
  | .obj a code i sub :: rest, l2, calls => by
    intro h inv hinv
    cases code with
    | none => simp [optimizeSubObjects, optimizeObject] at h
    | some c =>
      cases i with
      | none => simp [optimizeSubObjects, optimizeObject] at h
      | some i0 =>
        simp only [optimizeSubObjects, optimizeObject] at h
        cases hsub : optimizeSubObjects suite lang version settings sub with
        | none => rw [hsub] at h; cases h
        | some psub =>
          obtain ⟨subs2, cs1⟩ := psub
          rw [hsub] at h
          cases hrest : optimizeSubObjects suite lang version settings rest with
          | none => rw [hrest] at h; cases h
          | some prest =>
            obtain ⟨l', cs2⟩ := prest
            rw [hrest] at h
            simp only [Option.some.injEq, Prod.mk.injEq] at h
            rw [← h.2] at hinv
            simp only [List.mem_append, List.mem_singleton] at hinv
            rcases hinv with (hx | hx) | hx
            · exact optimizeSubObjects_spec suite lang version settings sub subs2 cs1
                hsub inv hx
            · rw [hx]
              exact ⟨rfl, rfl, rfl⟩
            · exact optimizeSubObjects_spec suite lang version settings rest l' cs2
                hrest inv hx

/-- C8: during optimize(Object&, bool) a cost model is built for an invocation
exactly when the dialect in use is one of the EVM (stack-VM) dialects, never
for the wasm dialect, and the expectedExecutionsPerDeployment hint is handed
to the optimizer suite only for non-creation invocations: the run on the
creation-level root object passes no estimate, while every sub-object
invocation passes the configured estimate. -/
theorem optimize_cost_model_and_executions {Block : Type} (suite : Block → Block)
    (lang : Language) (version : EVMVersion) (settings : OptimiserSettings)
    (nm : String) (code : Option Block) (info : Option AsmAnalysisInfo)
    (sub : List (YulNode Block)) (t2 : YulNode Block) (calls : List OptimiserInvocation)
    (h : optimizeObject suite lang version settings (.obj nm code info sub) true =
      some (t2, calls)) :
    (∀ inv ∈ calls, inv.meterBuilt = (languageToDialect lang version).isEVMDialect) ∧
    (∀ inv ∈ calls, inv.isCreation = true → inv.expectedExecutions = none) ∧
    (∀ inv ∈ calls, inv.isCreation = false →
      inv.expectedExecutions = some settings.expectedExecutionsPerDeployment) ∧
    (∃ subCalls, calls = subCalls ++
        [⟨true, (languageToDialect lang version).isEVMDialect, none⟩] ∧
      ∀ inv ∈ subCalls, inv.isCreation = false) := by
  cases code with
  | none => simp [optimizeObject] at h
  | some c =>
    cases info with
    | none => simp [optimizeObject] at h
    | some i0 =>
      simp only [optimizeObject] at h
      cases hsub : optimizeSubObjects suite lang version settings sub with
      | none => rw [hsub] at h; cases h
      | some p =>
        obtain ⟨subs2, cs⟩ := p
        rw [hsub] at h
        simp only [Option.some.injEq, Prod.mk.injEq, if_true] at h
        have hsubspec := optimizeSubObjects_spec suite lang version settings sub subs2 cs hsub
        rw [← h.2]
        refine ⟨?_, ?_, ?_, cs, rfl, fun inv hinv => (hsubspec inv hinv).1⟩
        · intro inv hinv
          rcases List.mem_append.mp hinv with hx | hx
          · exact (hsubspec inv hx).2.1
          · rw [List.mem_singleton] at hx
            rw [hx]
        · intro inv hinv hcr
          rcases List.mem_append.mp hinv with hx | hx
          · rw [(hsubspec inv hx).1] at hcr
            cases hcr
          · rw [List.mem_singleton] at hx
            rw [hx]
        · intro inv hinv hcr
          rcases List.mem_append.mp hinv with hx | hx
          · exact (hsubspec inv hx).2.2
          · rw [List.mem_singleton] at hx
            rw [hx] at hcr
            cases hcr

/-- Witness for C8: optimizing a strict-assembly root with one sub-object
records a meter-backed sub-invocation carrying the estimate and a final
meter-backed creation invocation carrying none. -/
theorem optimize_cost_model_and_executions_witness :
    (∀ inv ∈ [(⟨false, true, some 7⟩ : OptimiserInvocation), ⟨true, true, none⟩],
      inv.meterBuilt = (languageToDialect .StrictAssembly 0).isEVMDialect) ∧
    (∀ inv ∈ [(⟨false, true, some 7⟩ : OptimiserInvocation), ⟨true, true, none⟩],
      inv.isCreation = true → inv.expectedExecutions = none) ∧
    (∀ inv ∈ [(⟨false, true, some 7⟩ : OptimiserInvocation), ⟨true, true, none⟩],
      inv.isCreation = false → inv.expectedExecutions = some 7) ∧
    (∃ subCalls, [(⟨false, true, some 7⟩ : OptimiserInvocation), ⟨true, true, none⟩] =
        subCalls ++ [⟨true, (languageToDialect .StrictAssembly 0).isEVMDialect, none⟩] ∧
      ∀ inv ∈ subCalls, inv.isCreation = false) :=
  optimize_cost_model_and_executions (fun b : Nat => b + 1) .StrictAssembly 0
    ⟨true, false, "", 7⟩ "root" (some 0) (some AsmAnalysisInfo.fresh)
    [.obj "sub" (some 1) (some AsmAnalysisInfo.fresh) []]
    (.obj "root" (some 1) (some AsmAnalysisInfo.fresh)
      [.obj "sub" (some 2) (some AsmAnalysisInfo.fresh) []])
    [⟨false, true, some 7⟩, ⟨true, true, none⟩] rfl

theorem findIdx?_eq_some_of_unique {α : Type} (p : α → Bool) :
    ∀ (l : List α) (i : Nat) (target : α), l[i]? = some target → p target = true →
      (∀ j other, l[j]? = some other → p other = true → j = i) →
      List.findIdx? p l = some i
  | [], i, target => by
    intro hget _ _
    simp at hget
  | x :: xs, i, target => by
    intro hget hp huniq
    by_cases hx : p x = true
    · have h0 : (0 : Nat) = i := huniq 0 x (by simp) hx
      rw [List.findIdx?_cons, if_pos hx, h0]
    · have hi0 : i ≠ 0 := by
        intro h0
        subst h0
        simp only [List.getElem?_cons_zero, Option.some.injEq] at hget
        rw [hget] at hx
        exact hx hp
      obtain ⟨i2, rfl⟩ : ∃ i2, i = i2 + 1 := ⟨i - 1, by omega⟩
      have hget2 : xs[i2]? = some target := by simpa using hget
      have huniq2 : ∀ j other, xs[j]? = some other → p other = true → j = i2 := by
        intro j other hj hpo
        have := huniq (j + 1) other (by simpa using hj) hpo
        omega
      have hrec := findIdx?_eq_some_of_unique p xs i2 target hget2 hp huniq2
      rw [List.findIdx?_cons, if_neg hx, List.findIdx?_succ, hrec]
      rfl

/-- C1: the deployed-artifact selection policy of assembleWithDeployed on an
analyzed job: an explicitly supplied deploy name matching exactly one
sub-assembly selects that sub-assembly regardless of sibling count, and its
own linked bytes, textual form and source map become the deployed artifact;
an explicit name matching no sub-assembly is a fatal assert; with no name and
exactly one sub-assembly that one is selected; with no name and zero or
several sub-assemblies the deployed artifact stays default-constructed
(empty). In every returned pair the creation artifact is the top level's. -/
theorem assembleWithDeployed_selection_policy {Block : Type}
    (csm : List Nat → String → String) (s : AssemblyStack Block)
    (compiled : EvmAssembly)
    (nm : String) (c : Block) (i : AsmAnalysisInfo) (subNodes : List (YulNode Block))
    (srcName : String)
    (hana : s.analysisSuccessful = true)
    (htree : s.parserResult = some (.obj nm (some c) (some i) subNodes))
    (hscan : s.scannerSourceName = some srcName)
    (hlink : compiled.assemble.immutableReferences = []) :
    (∀ (dn : String) (idx : Nat) (target : EvmAssembly),
      compiled.subs[idx]? = some target → target.name = dn →
      (∀ (j : Nat) (other : EvmAssembly),
        compiled.subs[j]? = some other → other.name = dn → j = idx) →
      s.assembleWithDeployed csm compiled (some dn) =
        some (⟨some compiled.assemble, compiled.assemblyString,
            some (csm compiled.items srcName)⟩,
          ⟨some target.assemble, target.assemblyString,
            some (csm target.items srcName)⟩)) ∧
    (∀ (dn : String), (∀ sub2 ∈ compiled.subs, sub2.name ≠ dn) →
      s.assembleWithDeployed csm compiled (some dn) = none) ∧
    (∀ (only : EvmAssembly), compiled.subs = [only] →
      s.assembleWithDeployed csm compiled none =
        some (⟨some compiled.assemble, compiled.assemblyString,
            some (csm compiled.items srcName)⟩,
          ⟨some only.assemble, only.assemblyString, some (csm only.items srcName)⟩)) ∧
    (compiled.subs.length ≠ 1 →
      s.assembleWithDeployed csm compiled none =
        some (⟨some compiled.assemble, compiled.assemblyString,
            some (csm compiled.items srcName)⟩,
          ⟨none, "", none⟩)) := by
  refine ⟨?_, ?_, ?_, ?_⟩
  · intro dn idx target hget hname huniq
    have hfind : List.findIdx? (fun sub => sub.name == dn) compiled.subs = some idx := by
      refine findIdx?_eq_some_of_unique _ compiled.subs idx target hget ?_ ?_
      · simp [hname]
      · intro j other hj hpo
        exact huniq j other hj (by simpa using hpo)
    simp only [AssemblyStack.assembleWithDeployed, hana, htree, hscan]
    rw [if_neg (fun hk : true = false => by cases hk)]
    rw [if_neg (fun hk => hk hlink)]
    simp only [hfind, hget]
  · intro dn hnomatch
    have hfind : List.findIdx? (fun sub => sub.name == dn) compiled.subs = none := by
      rw [List.findIdx?_eq_none_iff]
      intro x hx
      simp only [beq_eq_false_iff_ne, ne_eq]
      exact hnomatch x hx
    simp only [AssemblyStack.assembleWithDeployed, hana, htree, hscan]
    rw [if_neg (fun hk : true = false => by cases hk)]
    rw [if_neg (fun hk => hk hlink)]
    simp only [hfind]
  · intro only honly
    have hlen : compiled.numSubs = 1 := by
      simp [EvmAssembly.numSubs, honly]
    simp only [AssemblyStack.assembleWithDeployed, hana, htree, hscan]
    rw [if_neg (fun hk : true = false => by cases hk)]
    rw [if_neg (fun hk => hk hlink)]
    simp only [hlen, if_pos, honly, List.getElem?_cons_zero]
  · intro hlen1
    have hlen : ¬ (compiled.numSubs = 1) := hlen1
    simp only [AssemblyStack.assembleWithDeployed, hana, htree, hscan]
    rw [if_neg (fun hk : true = false => by cases hk)]
    rw [if_neg (fun hk => hk hlink)]
    rw [if_neg hlen]

/-- Witness for C1 on a job with two sub-assemblies named A and B and on a job
with a single sub-assembly: explicit name B selects the second sub-assembly,
explicit name C is fatal, no name with one sub-assembly selects it, no name
with two sub-assemblies leaves the deployed artifact empty. -/
theorem assembleWithDeployed_selection_policy_witness :
    (AssemblyStack.assembleWithDeployed (fun _ _ => "map")
        (⟨.StrictAssembly, 0, ⟨false, false, "", 0⟩, some "src",
          some (.obj "o" (some 3) (some AsmAnalysisInfo.fresh) []), [], true⟩ : AssemblyStack Nat)
        (.mk "root" [9] ⟨[7], []⟩ "t0"
          [.mk "A" [1] ⟨[10], []⟩ "tA" [], .mk "B" [2] ⟨[20], []⟩ "tB" []]) (some "B") =
      some (⟨some ⟨[7], []⟩, "t0", some "map"⟩, ⟨some ⟨[20], []⟩, "tB", some "map"⟩)) ∧
    (AssemblyStack.assembleWithDeployed (fun _ _ => "map")
        (⟨.StrictAssembly, 0, ⟨false, false, "", 0⟩, some "src",
          some (.obj "o" (some 3) (some AsmAnalysisInfo.fresh) []), [], true⟩ : AssemblyStack Nat)
        (.mk "root" [9] ⟨[7], []⟩ "t0"
          [.mk "A" [1] ⟨[10], []⟩ "tA" [], .mk "B" [2] ⟨[20], []⟩ "tB" []]) (some "C") =
      none) ∧
    (AssemblyStack.assembleWithDeployed (fun _ _ => "map")
        (⟨.StrictAssembly, 0, ⟨false, false, "", 0⟩, some "src",
          some (.obj "o" (some 3) (some AsmAnalysisInfo.fresh) []), [], true⟩ : AssemblyStack Nat)
        (.mk "root" [9] ⟨[7], []⟩ "t0" [.mk "A" [1] ⟨[10], []⟩ "tA" []]) none =
      some (⟨some ⟨[7], []⟩, "t0", some "map"⟩, ⟨some ⟨[10], []⟩, "tA", some "map"⟩)) ∧
    (AssemblyStack.assembleWithDeployed (fun _ _ => "map")
        (⟨.StrictAssembly, 0, ⟨false, false, "", 0⟩, some "src",
          some (.obj "o" (some 3) (some AsmAnalysisInfo.fresh) []), [], true⟩ : AssemblyStack Nat)
        (.mk "root" [9] ⟨[7], []⟩ "t0"
          [.mk "A" [1] ⟨[10], []⟩ "tA" [], .mk "B" [2] ⟨[20], []⟩ "tB" []]) none =
      some (⟨some ⟨[7], []⟩, "t0", some "map"⟩, ⟨none, "", none⟩)) := by
  refine ⟨?_, ?_, ?_, ?_⟩
  · exact (assembleWithDeployed_selection_policy (fun _ _ => "map")
      (⟨.StrictAssembly, 0, ⟨false, false, "", 0⟩, some "src",
        some (.obj "o" (some (3 : Nat)) (some AsmAnalysisInfo.fresh) []), [], true⟩ : AssemblyStack Nat)
      (.mk "root" [9] ⟨[7], []⟩ "t0"
        [.mk "A" [1] ⟨[10], []⟩ "tA" [], .mk "B" [2] ⟨[20], []⟩ "tB" []])
      "o" 3 AsmAnalysisInfo.fresh [] "src" rfl rfl rfl rfl).1 "B" 1
      (.mk "B" [2] ⟨[20], []⟩ "tB" []) rfl rfl
      (by
        intro j other hj hpo
        rcases j with _ | _ | j
        · simp [EvmAssembly.subs] at hj
          subst hj
          exact absurd hpo (by decide)
        · rfl
        · simp [EvmAssembly.subs] at hj)
  · exact (assembleWithDeployed_selection_policy (fun _ _ => "map")
      (⟨.StrictAssembly, 0, ⟨false, false, "", 0⟩, some "src",
        some (.obj "o" (some (3 : Nat)) (some AsmAnalysisInfo.fresh) []), [], true⟩ : AssemblyStack Nat)
      (.mk "root" [9] ⟨[7], []⟩ "t0"
        [.mk "A" [1] ⟨[10], []⟩ "tA" [], .mk "B" [2] ⟨[20], []⟩ "tB" []])
      "o" 3 AsmAnalysisInfo.fresh [] "src" rfl rfl rfl rfl).2.1 "C"
      (by
        intro sub2 hs
        simp only [EvmAssembly.subs, List.mem_cons, List.not_mem_nil, or_false] at hs
        rcases hs with h | h
        · rw [h]
          decide
        · rw [h]
          decide)
  · exact (assembleWithDeployed_selection_policy (fun _ _ => "map")
      (⟨.StrictAssembly, 0, ⟨false, false, "", 0⟩, some "src",
        some (.obj "o" (some (3 : Nat)) (some AsmAnalysisInfo.fresh) []), [], true⟩ : AssemblyStack Nat)
      (.mk "root" [9] ⟨[7], []⟩ "t0" [.mk "A" [1] ⟨[10], []⟩ "tA" []])
      "o" 3 AsmAnalysisInfo.fresh [] "src" rfl rfl rfl rfl).2.2.1
      (.mk "A" [1] ⟨[10], []⟩ "tA" []) rfl
  · exact (assembleWithDeployed_selection_policy (fun _ _ => "map")
      (⟨.StrictAssembly, 0, ⟨false, false, "", 0⟩, some "src",
        some (.obj "o" (some (3 : Nat)) (some AsmAnalysisInfo.fresh) []), [], true⟩ : AssemblyStack Nat)
      (.mk "root" [9] ⟨[7], []⟩ "t0"
        [.mk "A" [1] ⟨[10], []⟩ "tA" [], .mk "B" [2] ⟨[20], []⟩ "tB" []])
      "o" 3 AsmAnalysisInfo.fresh [] "src" rfl rfl rfl rfl).2.2.2 (by decide)
end Solidity
